import Mathlib

/-!
Verification development for delve, a terminal gopher client (delve.c).

Strings are modelled as `List Char` (C strings never contain NUL in the
relevant paths; `NULL` pointers are modelled with `Option`).  All machine
integers that occur (list indices, line numbers, nesting counters) stay far
below 2^31, so they are modelled as `Nat`.  The fixed-size C buffers that do
overflow observable behaviour (`print_selector`'s 1024-byte buffer,
`set_var`'s 1024-byte format buffer, `execute_handler`'s 1024-byte command
buffer) are modelled with explicit `take 1023` truncation.
-/

namespace Delve

/-! ## String primitives (delve.c `str_*` helpers) -/

/-- `str_copy`: `str_copy(NULL)` and `str_copy("")` both yield the empty
string, so the `Option` coming out of `str_split` collapses to `[]`. -/
def str_copy (s : Option (List Char)) : List Char :=
  match s with
  | none => []
  | some l => l

/-- `str_skip(str, delim)`: advance over leading delimiter characters. -/
def str_skip (s : List Char) (delim : List Char) : List Char :=
  s.dropWhile (fun c => delim.contains c)

/-- `str_split(&str, delim)`: returns `none` when the string is exhausted
(C returns `NULL`), otherwise the maximal delimiter-free head token together
with the remainder after the first delimiter character (the delimiter byte is
overwritten with NUL and skipped in C). -/
def str_split (s : List Char) (delim : List Char) : Option (List Char) × List Char :=
  match s with
  | [] => (none, [])
  | _ :: _ =>
    (some (s.takeWhile (fun c => !(delim.contains c))),
     (s.dropWhile (fun c => !(delim.contains c))).tail)

/-- ASCII lower-casing, as C's `tolower` behaves in the C locale on the
ASCII command/variable names this program compares. -/
def lowerC (c : Char) : Char :=
  if 'A' ≤ c ∧ c ≤ 'Z' then Char.ofNat (c.toNat + 32) else c

/-- `strcasecmp(a, b) == 0`. -/
def lowerEq (a b : List Char) : Bool :=
  a.map lowerC == b.map lowerC

/-- C `atoi`: skip whitespace, optional sign, then leading digits. -/
def atoiDigits (s : List Char) : Nat :=
  (s.takeWhile Char.isDigit).foldl (fun acc c => acc * 10 + (c.toNat - 48)) 0

def atoiChars (s : List Char) : Int :=
  let s := s.dropWhile (fun c =>
    c = ' ' ∨ c = '\t' ∨ c = '\n' ∨ c = '\x0b' ∨ c = '\x0c' ∨ c = '\r')
  match s with
  | '-' :: r => - (atoiDigits r : Int)
  | '+' :: r => (atoiDigits r : Int)
  | r => (atoiDigits r : Int)

/-! ## Variable store (delve.c `Variable`, `set_var`) -/

structure Variable where
  name : List Char
  data : List Char
deriving DecidableEq, Repr

/-- Replace the data of the first case-insensitive match in the store. -/
def replace_first_var (store : List Variable) (nm d : List Char) : List Variable :=
  match store with
  | [] => []
  | v :: vs =>
    if lowerEq v.name nm then { v with data := d } :: vs
    else v :: replace_first_var vs nm d

/-- `set_var(list, name, fmt...)`.  `name = none` models a `NULL` name
(returns `NULL`, no mutation).  `value = none` models a `NULL` format string:
a pure lookup.  Otherwise find-or-create: an existing case-insensitive match
has its data replaced in place, otherwise a fresh variable is pushed on the
front of the store.  The value passes through a 1024-byte `vsnprintf` buffer,
hence the truncation to 1023 characters. -/
def set_var (store : List Variable) (name : Option (List Char))
    (value : Option (List Char)) : Option (List Char) × List Variable :=
  match name with
  | none => (none, store)
  | some nm =>
    match value with
    | none => ((store.find? (fun v => lowerEq v.name nm)).map Variable.data, store)
    | some d =>
      let d := d.take 1023
      if (store.find? (fun v => lowerEq v.name nm)).isSome then
        (some d, replace_first_var store nm d)
      else
        (some d, { name := nm, data := d } :: store)

/-! ## Selector model (delve.c `Selector`) -/

structure Selector where
  index : Nat
  type : Char
  name : List Char
  host : List Char
  port : List Char
  path : List Char
deriving DecidableEq, Repr

/-- `copy_selector`: value copy with `index = 1` and `next = NULL`. -/
def copy_selector (sel : Selector) : Selector :=
  { sel with index := 1 }

/-- `append_selector`: append at the tail; the new tail's index is the old
tail's index plus one, or 1 when the list was empty. -/
def append_selector (list : List Selector) (sel : Selector) : List Selector :=
  match list.getLast? with
  | none => [{ sel with index := 1 }]
  | some last => list ++ [{ sel with index := last.index + 1 }]

/-- `prepend_selector`: push at the head; the new head's index is the old
head's index plus one, or 1 when the list was empty. -/
def prepend_selector (list : List Selector) (sel : Selector) : List Selector :=
  { sel with index := (match list with | [] => 1 | h :: _ => h.index + 1) } :: list

/-- `find_selector`: `atoi` the line; non-positive means no selector,
otherwise the first node carrying that index. -/
def find_selector (list : List Selector) (line : List Char) : Option Selector :=
  let i := atoiChars line
  if i ≤ 0 then none
  else list.find? (fun s => (s.index : Int) = i)

/-- The `"gopher://"` scheme marker. -/
def gopherScheme : List Char := ['g', 'o', 'p', 'h', 'e', 'r', ':', '/', '/']

/-- The untruncated serialization `[gopher://]host:port/<type><path>`
produced by `print_selector`'s format string. -/
def serialize_selector (sel : Selector) (withPfx : Bool) : List Char :=
  (if withPfx then gopherScheme else []) ++
    sel.host ++ ':' :: sel.port ++ '/' :: sel.type :: sel.path

/-- `print_selector`: renders into a static 1024-byte buffer via `snprintf`,
so the output is silently truncated to at most 1023 characters. -/
def print_selector (sel : Selector) (withPfx : Bool) : List Char :=
  (serialize_selector sel withPfx).take 1023

/-- `print_selector(NULL, _) = ""`. -/
def print_selector_c (sel : Option Selector) (withPfx : Bool) : List Char :=
  match sel with
  | none => []
  | some s => print_selector s withPfx

/-- Assemble the selector built by `parse_selector` once host, port, type and
path are known: the display name is re-derived from the serialized form. -/
def mkParsedSel (host port : List Char) (ty : Char) (path : List Char) : Selector :=
  let pre : Selector :=
    { index := 0, type := ty, name := [], host := host, port := port, path := path }
  { pre with name := print_selector pre true }

/-- The part of `parse_selector` after the optional scheme strip: `strpbrk`
finds the first `:` or `/`; a `:` introduces host and explicit port, a `/`
ends the host with the port defaulting to `"70"`, no separator means the
whole rest is the host. -/
def parse_selector_body (s : List Char) : Selector :=
  let sep := (s.dropWhile (fun c => !(c = ':' ∨ c = '/'))).head?
  if sep = some ':' then
    let host := str_copy (str_split s [':']).1
    let r1 := (str_split s [':']).2
    let port := str_copy (str_split r1 ['/']).1
    let r2 := (str_split r1 ['/']).2
    match r2 with
    | [] => mkParsedSel host port '1' []
    | c :: cs => mkParsedSel host port c cs
  else if sep = none then
    mkParsedSel s ['7', '0'] '1' []
  else
    let host := str_copy (str_split s ['/']).1
    let r1 := (str_split s ['/']).2
    match r1 with
    | [] => mkParsedSel host ['7', '0'] '1' []
    | c :: cs => mkParsedSel host ['7', '0'] c cs

/-- `parse_selector`: fails on the empty string, strips an optional
`gopher://` scheme, splits host at the first `:` or `/` (a `:` introduces an
explicit port, otherwise the port defaults to `"70"`), consumes one
character after `/` as the type (default `'1'`), keeps the rest as path. -/
def parse_selector (str : List Char) : Option Selector :=
  match str with
  | [] => none
  | _ :: _ =>
    some (parse_selector_body (if gopherScheme.isPrefixOf str then str.drop 9 else str))

/-- `parse_selector` at a possibly-`NULL` argument (e.g. from `next_token`). -/
def parse_selector_c (str : Option (List Char)) : Option Selector :=
  match str with
  | none => none
  | some s => parse_selector s

/-! ## Line extraction

Both `eval` and `parse_selector_list` iterate
`line = str_split(&str, "\r\n"); ...; str = str_skip(str, "\r\n");`.
Since the body never touches `str`, the extracted lines can be computed up
front.  The recursion consumes at least one character per step, so the input
length is enough fuel; `toLinesF_congr` below discharges the fuel. -/

def crlf : List Char := ['\r', '\n']

def toLinesF : Nat → List Char → List (List Char)
  | _, [] => []
  | 0, _ :: _ => []
  | f + 1, c :: cs =>
    let s := c :: cs
    let line := s.takeWhile (fun x => !(crlf.contains x))
    let rest := (s.dropWhile (fun x => !(crlf.contains x))).tail
    line :: toLinesF f (str_skip rest crlf)

def toLines (s : List Char) : List (List Char) :=
  toLinesF s.length s

/-! ## Selector List decoding (delve.c `parse_selector_list`) -/

/-- One wire menu line after the type character: split the remainder on tabs
into name, path, host, port; exhausted splits yield `NULL`, which `str_copy`
turns into the empty string. -/
def menuEntryOfLine (ty : Char) (l : List Char) : Selector :=
  let s1 := str_split l ['\t']
  let s2 := str_split s1.2 ['\t']
  let s3 := str_split s2.2 ['\t']
  let s4 := str_split s3.2 ['\t']
  { index := 0, type := ty, name := str_copy s1.1, path := str_copy s2.1,
    host := str_copy s3.1, port := str_copy s4.1 }

/-- The decoding loop: stop at an exhausted input, an empty line, or a line
whose first character is `'.'` (C checks `*line == '.'`); otherwise append
the decoded entry (which numbers it) and continue. -/
def parse_selector_list_lines : List (List Char) → List Selector → List Selector
  | [], acc => acc
  | [] :: _, acc => acc
  | (c :: lrest) :: ls, acc =>
    if c = '.' then acc
    else parse_selector_list_lines ls (append_selector acc (menuEntryOfLine c lrest))

def parse_selector_list (s : List Char) : List Selector :=
  parse_selector_list_lines (toLines s) []

/-! ## Events, process state, transport

The terminal / pager / file-system / process-spawn collaborators are
external per the spec; what the core emits towards them that the claims
observe (error reports, alias expansions, handler command strings) is
recorded in a chronological event log. -/

inductive Event where
  | errCannotResolve (host : List Char)
  | errCannotConnect (host port : List Char)
  | errUnknownCommand (token : List Char) (src : Option (List Char)) (lineNo : Nat)
  | errNestedTooDeep
  | errHistoryEmpty
  | errNoHandler (ty : Char)
  | aliasExpanded (token : List Char)
  | ranHandler (command : List Char)
deriving DecidableEq, Repr

/-- The process-wide mutable state of delve: the three variable stores, the
three selector lists, pending interactive input lines, the event log and the
quit flag (C calls `exit`; here the flag short-circuits further execution). -/
structure GState where
  vars : List Variable
  aliases : List Variable
  typehandlers : List Variable
  bookmarks : List Selector
  history : List Selector
  menu : List Selector
  stdin : List (List Char)
  log : List Event
  quit : Bool
deriving DecidableEq, Repr

def pushEvent (st : GState) (e : Event) : GState :=
  { st with log := st.log ++ [e] }

def initState : GState :=
  { vars := [], aliases := [], typehandlers := [], bookmarks := [],
    history := [], menu := [], stdin := [], log := [], quit := false }

/-- Network failure kinds surfaced by `download`: `getaddrinfo` failing
(resolution) or every candidate address refusing the connection. -/
inductive NetErr where
  | resolveFail
  | connectFail
deriving DecidableEq, Repr

/-- The TCP transport (resolve, connect, send `path[\tquery]\r\n`, read to
EOF) is an external collaborator: a function from the selector and optional
query to the full response bytes or a failure kind. -/
def Transport : Type := Selector → Option (List Char) → Except NetErr (List Char)

/-- A host that refuses every connection. -/
def refuseAll : Transport := fun _ _ => Except.error NetErr.connectFail

def wsChars : List Char := [' ', '\x0b', '\t']

/-- `read_line`: one line of interactive input (leading blanks skipped, the
trailing newline removed, `""` when the line is blank), or `none` at EOF.
Interactive lines are assumed under the 256-byte `fgets` buffer. -/
def read_line (st : GState) : Option (List Char) × GState :=
  match st.stdin with
  | [] => (none, st)
  | l :: rest =>
    (some ((str_split (str_skip l wsChars) crlf).1.getD []),
     { st with stdin := rest })

/-- `next_token`: skip blanks; `'\0'`/`'#'` end the line; `'"'` opens a
quoted token running to the closing quote (or input end, where C's
`str_split` yields `NULL`); `'$'` substitutes a session variable (empty
string when unset); otherwise the token runs to the next blank. -/
def next_token (vars : List Variable) (line : List Char) :
    Option (List Char) × List Char :=
  match str_skip line wsChars with
  | [] => (none, [])
  | c :: cs =>
    if c = '#' then (none, c :: cs)
    else if c = '"' then str_split cs ['"']
    else if c = '$' then
      let r := str_split cs wsChars
      (some ((set_var vars r.1 none).1.getD []), r.2)
    else str_split (c :: cs) wsChars

/-! ## Download pipeline (delve.c `download*`) -/

/-- `download`: a failed resolution or connection is reported and yields no
data; otherwise the transport's full response. -/
def download (tp : Transport) (st : GState) (sel : Selector)
    (query : Option (List Char)) : Option (List Char) × GState :=
  match tp sel query with
  | Except.error NetErr.resolveFail => (none, pushEvent st (Event.errCannotResolve sel.host))
  | Except.error NetErr.connectFail =>
      (none, pushEvent st (Event.errCannotConnect sel.host sel.port))
  | Except.ok data => (some data, st)

/-- `download_to_menu`: `NULL` from `download` stays `NULL`; otherwise the
decoded selector list (which C also represents as `NULL` when empty). -/
def download_to_menu (tp : Transport) (st : GState) (sel : Selector)
    (query : Option (List Char)) : List Selector × GState :=
  match download tp st sel query with
  | (none, st') => ([], st')
  | (some d, st') => (parse_selector_list d, st')

/-- The `mkstemp` template; randomization of the suffix is external I/O. -/
def tempFileName : List Char := "/tmp/delve.XXXXXXXX".data

/-- `download_to_temp`: fails exactly when the download fails; the write to
the temporary file is external. -/
def download_to_temp (tp : Transport) (st : GState) (sel : Selector) :
    Option (List Char) × GState :=
  match download tp st sel none with
  | (none, st') => (none, st')
  | (some _, st') => (some tempFileName, st')

/-- `download_to_file`: download, then prompt for a destination filename;
the disk write itself is external. -/
def download_to_file (tp : Transport) (st : GState) (sel : Selector) : GState :=
  match download tp st sel none with
  | (none, st') => st'
  | (some _, st') => (read_line st').2

/-! ## Type handlers (delve.c `find_selector_handler`, `execute_handler`) -/

def find_selector_handler (ths : List Variable) (ty : Char) : Option (List Char) :=
  (set_var ths (some [ty]) none).1

/-- The `%`-substitution loop of `execute_handler`, building the command in
a 1024-byte buffer (`l < 1023` guard, appends capped).  `%f` downloads to a
temporary file once per invocation (memoized in `fmemo`); when that download
fails the handler returns early without running anything (`none`). -/
def subst_loop (tp : Transport) (tgt : Selector) :
    List Char → GState → List Char → Nat → Option (List Char) →
    Option (List Char) × GState
  | [], st, acc, _, _ => (some acc, st)
  | h :: hs, st, acc, l, fmemo =>
    if 1023 ≤ l then (some acc, st)
    else if h = '%' then
      match hs with
      | [] => (some (acc ++ ['%']), st)
      | d :: hs2 =>
        if d = 'f' then
          match fmemo with
          | some fn =>
            subst_loop tp tgt hs2 st (acc ++ fn.take (1023 - l)) (l + (fn.take (1023 - l)).length) fmemo
          | none =>
            match download_to_temp tp st tgt with
            | (none, st') => (none, st')
            | (some fn, st') =>
              subst_loop tp tgt hs2 st' (acc ++ fn.take (1023 - l)) (l + (fn.take (1023 - l)).length) (some fn)
        else
          let app : List Char :=
            if d = '%' then ['%']
            else if d = 'h' then tgt.host
            else if d = 'p' then tgt.port
            else if d = 's' then tgt.path
            else if d = 'n' then tgt.name
            else []
          subst_loop tp tgt hs2 st (acc ++ app.take (1023 - l)) (l + (app.take (1023 - l)).length) fmemo
    else subst_loop tp tgt hs st (acc ++ [h]) (l + 1) fmemo

/-- `execute_handler`: substitute the selector into the handler string, then
hand the command to the process-spawn sink (an opaque collaborator; the
hand-off is logged).  Temp-file removal is external. -/
def execute_handler (tp : Transport) (st : GState) (handler : List Char)
    (tgt : Selector) : GState :=
  match subst_loop tp tgt handler st [] 0 none with
  | (none, st') => st'
  | (some cmd, st') => pushEvent st' (Event.ranHandler cmd)

/-! ## Navigation controller (delve.c `navigate`) -/

/-- The shared tail of the `'7'`/`'1'` cases: fetch as menu; `NULL` aborts
with everything untouched; otherwise push a copy of the selector onto
history unless it already *is* (pointer-wise) the history head, and replace
the menu wholesale.  `ptrEqHist` embeds the C pointer comparison
`history == to`; each call site passes the value pointer identity dictates
there. -/
def navigate_menu (tp : Transport) (ptrEqHist : Bool) (st : GState)
    (tgt : Selector) (query : Option (List Char)) : GState :=
  let r := download_to_menu tp st tgt query
  match r.1 with
  | [] => r.2
  | _ :: _ =>
    let st2 :=
      if ptrEqHist then r.2
      else { r.2 with history := prepend_selector r.2.history (copy_selector tgt) }
    { st2 with menu := r.1 }

/-- `navigate`: the state machine over the selector type.  `'7'` prompts for
a search string and then behaves as `'1'`; binary types download to a file;
`'i'`/`'3'` are ignored; anything else tries a type handler first, then the
internal pager for `'0'`, else reports a missing handler. -/
def navigate (tp : Transport) (ptrEqHist : Bool) (st : GState)
    (tgt? : Option Selector) : GState :=
  match tgt? with
  | none => st
  | some tgt =>
    if tgt.type = '7' then
      let r := read_line st
      navigate_menu tp ptrEqHist r.2 tgt r.1
    else if tgt.type = '1' then
      navigate_menu tp ptrEqHist st tgt none
    else if tgt.type = '4' ∨ tgt.type = '5' ∨ tgt.type = '6' ∨ tgt.type = '9' then
      download_to_file tp st tgt
    else if tgt.type = 'i' ∨ tgt.type = '3' then st
    else
      match find_selector_handler st.typehandlers tgt.type with
      | some h => execute_handler tp st h tgt
      | none =>
        if tgt.type = '0' then (download tp st tgt none).2
        else pushEvent st (Event.errNoHandler tgt.type)

/-! ## Built-in commands (delve.c `cmd_*`, `edit_variable`) -/

/-- `edit_variable`: `<name> <value>` sets, `<name>` alone or nothing lists
(display only). -/
def edit_variable (st : GState) (line : List Char) (store : List Variable) :
    List Variable :=
  let r1 := next_token st.vars line
  let r2 := next_token st.vars r1.2
  match r1.1 with
  | none => store
  | some nm =>
    match r2.1 with
    | some d => (set_var store (some nm) (some d)).2
    | none => store

def cmd_quit (_tp : Transport) (st : GState) (_line : List Char) : GState :=
  { st with quit := true }

def cmd_open (tp : Transport) (st : GState) (line : List Char) : GState :=
  navigate tp false st (parse_selector_c (next_token st.vars line).1)

def cmd_show (_tp : Transport) (st : GState) (_line : List Char) : GState :=
  st

def cmd_save (tp : Transport) (st : GState) (line : List Char) : GState :=
  match find_selector st.menu line with
  | some tgt => download_to_file tp st tgt
  | none => st

def cmd_back (tp : Transport) (st : GState) (_line : List Char) : GState :=
  match st.history with
  | _ :: h2 :: rest => navigate tp true { st with history := h2 :: rest } (some h2)
  | _ => pushEvent st Event.errHistoryEmpty

def cmd_help (_tp : Transport) (st : GState) (_line : List Char) : GState :=
  st

/-- `find_selector` scans from the head, so the node it returns is the head
node precisely when the head's index is the sought one; this computes the
pointer comparison `history == to` for `cmd_history`. -/
def headIndexEq (hist : List Selector) (tgt : Selector) : Bool :=
  match hist with
  | [] => false
  | h :: _ => h.index = tgt.index

def cmd_history (tp : Transport) (st : GState) (line : List Char) : GState :=
  match find_selector st.history line with
  | some tgt => navigate tp (headIndexEq st.history tgt) st (some tgt)
  | none => st

def cmd_bookmarks (tp : Transport) (st : GState) (line : List Char) : GState :=
  match find_selector st.bookmarks line with
  | some tgt => navigate tp false st (some tgt)
  | none =>
    let r1 := next_token st.vars line
    let r2 := next_token st.vars r1.2
    match r2.1 with
    | none => st
    | some url =>
      match parse_selector url with
      | none => st
      | some sel =>
        { st with bookmarks :=
            append_selector st.bookmarks { sel with name := str_copy r1.1 } }

def cmd_set (_tp : Transport) (st : GState) (line : List Char) : GState :=
  { st with vars := edit_variable st line st.vars }

def cmd_see (_tp : Transport) (st : GState) (_line : List Char) : GState :=
  st

def cmd_alias (_tp : Transport) (st : GState) (line : List Char) : GState :=
  { st with aliases := edit_variable st line st.aliases }

def cmd_type (_tp : Transport) (st : GState) (line : List Char) : GState :=
  { st with typehandlers := edit_variable st line st.typehandlers }

structure CmdEntry where
  name : List Char
  run : Transport → GState → List Char → GState

/-- The fixed built-in command table, in source order. -/
def gopher_commands : List CmdEntry :=
  [ ⟨"quit".data, cmd_quit⟩, ⟨"open".data, cmd_open⟩, ⟨"show".data, cmd_show⟩,
    ⟨"save".data, cmd_save⟩, ⟨"back".data, cmd_back⟩, ⟨"help".data, cmd_help⟩,
    ⟨"history".data, cmd_history⟩, ⟨"bookmarks".data, cmd_bookmarks⟩,
    ⟨"set".data, cmd_set⟩, ⟨"see".data, cmd_see⟩, ⟨"alias".data, cmd_alias⟩,
    ⟨"type".data, cmd_type⟩ ]

/-- Case-insensitive scan of the command table, first match wins. -/
def findBuiltin (token : List Char) : Option CmdEntry :=
  gopher_commands.find? (fun c => lowerEq c.name token)

/-! ## Interpreter (delve.c `eval`)

The C recursion guard is a process-wide counter: incremented on entry,
decremented on exit, and `eval` fails immediately when it has reached 10 on
entry.  Only `eval` touches the counter and its updates are balanced, so it
is equivalently threaded here as remaining fuel `10 - nested`, which also
makes the recursion structural. -/

/-- Dispatch one line: empty/comment lines are skipped; the first token is
matched case-insensitively against the built-in table; otherwise a matching
alias is expanded by a recursive `eval` on (a fresh copy of) its stored
value, with the alias name as the new source label; otherwise the unknown
command is reported with token, source label and line number. -/
def evalLineWith (tp : Transport)
    (recur : GState → List Char → Option (List Char) → GState)
    (st : GState) (line : List Char) (filename : Option (List Char))
    (lineNo : Nat) : GState :=
  match next_token st.vars line with
  | (none, _) => st
  | (some token, rest) =>
    match findBuiltin token with
    | some c => c.run tp st rest
    | none =>
      match (set_var st.aliases (some token) none).1 with
      | some d => recur (pushEvent st (Event.aliasExpanded token)) d (some token)
      | none => pushEvent st (Event.errUnknownCommand token filename lineNo)

def evalLinesGo (tp : Transport)
    (recur : GState → List Char → Option (List Char) → GState) :
    GState → List (List Char) → Option (List Char) → Nat → GState
  | st, [], _, _ => st
  | st, l :: ls, fn, n =>
    if st.quit then st
    else evalLinesGo tp recur (evalLineWith tp recur st l fn n) ls fn (n + 1)

def evalFuel (tp : Transport) :
    Nat → GState → List Char → Option (List Char) → GState
  | 0, st, _, _ => if st.quit then st else pushEvent st Event.errNestedTooDeep
  | f + 1, st, input, fn =>
    if st.quit then st
    else evalLinesGo tp (fun a b c => evalFuel tp f a b c) st (toLines input) fn 1

/-- `eval(input, filename)` entered while the process-wide nesting counter
holds `nested`. -/
def eval (tp : Transport) (nested : Nat) (st : GState) (input : List Char)
    (filename : Option (List Char)) : GState :=
  evalFuel tp (10 - nested) st input filename

/-! ## The locator grammar `[gopher://]host[:port][/<type><path>]`

`host` is a non-empty run free of `:` and `/`; `port`, when present, is a
non-empty digit string; everything after `/` is one type character (default
`'1'` when absent) followed by an arbitrary path. -/

def ppChars : Option (List Char) → List Char
  | none => []
  | some p => ':' :: p

def tlChars : Option (List Char) → List Char
  | none => []
  | some t => '/' :: t

def locatorString (pfx : Bool) (host : List Char)
    (pOpt tOpt : Option (List Char)) : List Char :=
  (if pfx then gopherScheme else []) ++ host ++ ppChars pOpt ++ tlChars tOpt

def CleanHost (host : List Char) : Prop := ∀ c ∈ host, c ≠ ':' ∧ c ≠ '/'

def PortOpt (pOpt : Option (List Char)) : Prop :=
  ∀ p, pOpt = some p → p ≠ [] ∧ ∀ c ∈ p, c.isDigit = true

def GrammarLocator (s : List Char) : Prop :=
  ∃ pfx host pOpt tOpt, s = locatorString pfx host pOpt tOpt ∧
    host ≠ [] ∧ CleanHost host ∧ PortOpt pOpt

/-- The port the parser assigns: the explicit one, or the `"70"` default. -/
def portOfOpt : Option (List Char) → List Char
  | none => ['7', '0']
  | some p => p

/-- The type character the parser assigns: a first character after the
slash, or the `'1'` default. -/
def typeOfOpt : Option (List Char) → Char
  | none => '1'
  | some [] => '1'
  | some (c :: _) => c

def pathOfOpt : Option (List Char) → List Char
  | none => []
  | some [] => []
  | some (_ :: cs) => cs

/-! ## The menu decoder as the spec sentence words it, and as amended -/

/-- Split on CR/LF with every separator producing a line boundary (the
claim's reading of "splits the input on CR/LF"). -/
def splitAllLines (s : List Char) : List (List Char) :=
  s.foldr
    (fun c acc =>
      if c = '\r' ∨ c = '\n' then [] :: acc
      else match acc with
        | [] => [[c]]
        | a :: rest => (c :: a) :: rest)
    [[]]

/-- Number decoded entries 1-based from `i`. -/
def numberEntries : Nat → List (List Char) → List Selector
  | _, [] => []
  | i, l :: ls =>
    { menuEntryOfLine (l.headD ' ') l.tail with index := i } :: numberEntries (i + 1) ls

/-- The decoder exactly as the claim states it: lines are produced by
splitting on every CR/LF, decoding stops at an empty line or at a line that
is exactly `"."`. -/
def decodeMenuClaim (s : List Char) : List Selector :=
  numberEntries 1
    ((splitAllLines s).takeWhile (fun l => !(l.isEmpty || l == ['.'])))

/-- The decoder as the code actually behaves: lines come from the
`str_split`/`str_skip` loop (runs of CR/LF collapse, so an empty line can
only appear when the input itself begins with CR/LF), and decoding stops at
an empty line or a line whose *first character* is `'.'`. -/
def decodeMenuAmended (s : List Char) : List Selector :=
  numberEntries 1
    ((toLines s).takeWhile (fun l => !(l.isEmpty || l.head? == some '.')))

/-! ## Predicates and fixtures for the remaining claims -/

/-- Events reporting an unknown command. -/
def isUnknownEv : Event → Bool
  | Event.errUnknownCommand _ _ _ => true
  | _ => false

/-- `st'` extends `st`'s event log and none of the new events is an
unknown-command report. -/
def NoNewUnknown (st st' : GState) : Prop :=
  ∃ L, st'.log = st.log ++ L ∧ ∀ e ∈ L, isUnknownEv e = false

/-- No two store entries share a case-insensitive name. -/
def PairwiseCI (store : List Variable) : Prop :=
  (store.map Variable.name).Pairwise (fun a b => lowerEq a b = false)

def appendAll (sels : List Selector) : List Selector :=
  sels.foldl append_selector []

def prependAll (sels : List Selector) : List Selector :=
  sels.foldl prepend_selector []

/-- Head index of a selector chain, 0 for the empty chain. -/
def headIdx : List Selector → Nat
  | [] => 0
  | h :: _ => h.index

/-- The stub transport of the spec's end-to-end example. -/
def demoBytes : List Char := "1Demo Menu\t/demo\texample.org\t70\r\n.\r\n".data

def stubDemoTransport : Transport := fun _ _ => Except.ok demoBytes

/-- A grammar-accepted locator whose canonical form overflows
`print_selector`'s 1024-byte buffer. -/
def c1LongLocator : List Char :=
  'h' :: ':' :: '7' :: '0' :: '/' :: '1' :: List.replicate 1010 'a'

/-- A selector whose serialized form overflows the buffer. -/
def longPathSel : Selector :=
  { index := 0, type := '1', name := [], host := ['h'], port := ['7', '0'],
    path := List.replicate 1020 'a' }

/-- A wire menu whose first line starts with `'.'` without being `"."`. -/
def menuCxDot : List Char := ".x\tp\th\t70\r\n".data

/-- A wire menu with an empty line between two entries. -/
def menuCxBlank : List Char := "1a\tb\tc\td\n\n1e\tf\tg\th\n".data

/-- A featureless selector for counterexample lists. -/
def selZero : Selector :=
  { index := 0, type := '1', name := [], host := [], port := [], path := [] }

/-- A transport that connects but whose response decodes to the empty menu
(the terminator alone), which C also represents as `NULL`. -/
def emptyMenuTransport : Transport := fun _ _ => Except.ok (".\r\n".data)

/-- A short well-formed selector for witnesses. -/
def demoSel : Selector :=
  { index := 0, type := '1', name := [],
    host := "example.org".data, port := "70".data, path := "/".data }

/-- Last assigned index of a selector chain, 0 for the empty chain (the
value `append_selector` continues from). -/
def lastIdx (acc : List Selector) : Nat :=
  (acc.getLast?.map Selector.index).getD 0

set_option maxRecDepth 10000

/-! # Helper lemmas -/

theorem takeWhile_append_all {p : Char → Bool} {a b : List Char}
    (h : ∀ c ∈ a, p c = true) : (a ++ b).takeWhile p = a ++ b.takeWhile p := by
  induction a with
  | nil => simp
  | cons x xs ih => simp_all [List.takeWhile_cons]

theorem dropWhile_append_all {p : Char → Bool} {a b : List Char}
    (h : ∀ c ∈ a, p c = true) : (a ++ b).dropWhile p = b.dropWhile p := by
  induction a with
  | nil => simp
  | cons x xs ih => simp_all [List.dropWhile_cons]

theorem takeWhile_all {p : Char → Bool} {a : List Char}
    (h : ∀ c ∈ a, p c = true) : a.takeWhile p = a := by
  induction a with
  | nil => simp
  | cons x xs ih => simp_all [List.takeWhile_cons]

theorem dropWhile_all {p : Char → Bool} {a : List Char}
    (h : ∀ c ∈ a, p c = true) : a.dropWhile p = [] := by
  induction a with
  | nil => simp
  | cons x xs ih => simp_all [List.dropWhile_cons]

theorem str_split_ne_nil {l delim : List Char} (h : l ≠ []) :
    str_split l delim =
      (some (l.takeWhile (fun c => !(delim.contains c))),
       (l.dropWhile (fun c => !(delim.contains c))).tail) := by
  cases l with
  | nil => exact absurd rfl h
  | cons x xs => rfl

/-- `str_split` at the first delimiter occurrence. -/
theorem str_split_append {delim a b : List Char} {d : Char}
    (ha : ∀ c ∈ a, delim.contains c = false) (hd : delim.contains d = true) :
    str_split (a ++ d :: b) delim = (some a, b) := by
  have hp : ∀ c ∈ a, (!(delim.contains c)) = true := by
    intro c hc; have := ha c hc; simp_all
  have hd2 : d ∈ delim := by simpa using hd
  rw [str_split_ne_nil (by simp)]
  rw [takeWhile_append_all hp, dropWhile_append_all hp]
  simp [List.takeWhile_cons, List.dropWhile_cons, hd2]

/-- `str_split` when no delimiter occurs. -/
theorem str_split_no_delim {l delim : List Char} (h : l ≠ [])
    (hl : ∀ c ∈ l, delim.contains c = false) :
    str_split l delim = (some l, []) := by
  have hp : ∀ c ∈ l, (!(delim.contains c)) = true := by
    intro c hc; have := hl c hc; simp_all
  rw [str_split_ne_nil h, takeWhile_all hp, dropWhile_all hp]
  rfl

theorem lowerEq_iff {a b : List Char} :
    lowerEq a b = true ↔ a.map lowerC = b.map lowerC := by
  simp [lowerEq]

theorem lowerEq_congr {t1 t2 : List Char} (h : lowerEq t1 t2 = true)
    (a : List Char) : lowerEq a t1 = lowerEq a t2 := by
  have h' := lowerEq_iff.mp h
  simp [lowerEq, h']

theorem lowerEq_symm (a b : List Char) : lowerEq a b = lowerEq b a := by
  by_cases h : (a.map lowerC = b.map lowerC)
  · simp [lowerEq, h]
  · have h' : ¬ (b.map lowerC = a.map lowerC) := fun hh => h hh.symm
    simp [lowerEq, h, h']

theorem find?_pred_congr {α : Type} {p q : α → Bool} (h : ∀ x, p x = q x) :
    ∀ l : List α, l.find? p = l.find? q := by
  intro l
  induction l with
  | nil => rfl
  | cons x xs ih => simp [List.find?_cons, h x, ih]

theorem find?_replace_first {store : List Variable} {nm d : List Char}
    {w : Variable} (h : store.find? (fun v => lowerEq v.name nm) = some w) :
    (replace_first_var store nm d).find? (fun v => lowerEq v.name nm) =
      some { w with data := d } := by
  induction store with
  | nil => simp at h
  | cons v vs ih =>
    by_cases hv : lowerEq v.name nm = true
    · have hv1 : (fun x : Variable => lowerEq x.name nm) v = true := hv
      rw [List.find?_cons_of_pos vs hv1] at h
      have hw : v = w := by exact Option.some.inj h
      subst hw
      simp only [replace_first_var, if_pos hv]
      have hv2 : (fun x : Variable => lowerEq x.name nm) { v with data := d } = true := hv
      exact List.find?_cons_of_pos _ hv2
    · rw [List.find?_cons_of_neg _ (by simp [hv])] at h
      simp only [replace_first_var, if_neg hv]
      rw [List.find?_cons_of_neg _ (by simp [hv])]
      exact ih h

theorem names_replace_first (store : List Variable) (nm d : List Char) :
    (replace_first_var store nm d).map Variable.name = store.map Variable.name := by
  induction store with
  | nil => rfl
  | cons v vs ih =>
    by_cases hv : lowerEq v.name nm = true <;>
      simp [replace_first_var, hv, ih]

theorem read_line_frame (st : GState) :
    (read_line st).2.menu = st.menu ∧ (read_line st).2.history = st.history ∧
    (read_line st).2.log = st.log ∧ (read_line st).2.vars = st.vars ∧
    (read_line st).2.aliases = st.aliases ∧ (read_line st).2.quit = st.quit := by
  cases hst : st.stdin with
  | nil => simp [read_line, hst]
  | cons l rest => simp [read_line, hst]

/-! ## Index bookkeeping of `append_selector` / `prepend_selector` -/

theorem append_selector_eq {acc : List Selector} {n : Nat} (sel : Selector)
    (h : lastIdx acc = n) :
    append_selector acc sel = acc ++ [{ sel with index := n + 1 }] := by
  cases hacc : acc.getLast? with
  | none =>
    have hnil : acc = [] := List.getLast?_eq_none_iff.mp hacc
    subst hnil
    simp [lastIdx] at h
    simp [append_selector, ← h]
  | some last =>
    have hn : last.index = n := by simp [lastIdx, hacc] at h; exact h
    simp [append_selector, hacc, hn]

theorem lastIdx_concat (acc : List Selector) (sel : Selector) :
    lastIdx (acc ++ [sel]) = sel.index := by
  simp [lastIdx, List.getLast?_concat]

theorem foldl_append_indices :
    ∀ (sels : List Selector) (acc : List Selector) (n : Nat), lastIdx acc = n →
      (sels.foldl append_selector acc).map Selector.index =
        acc.map Selector.index ++ List.range' (n + 1) sels.length := by
  intro sels
  induction sels with
  | nil => intro acc n h; simp
  | cons s ss ih =>
    intro acc n h
    have he := append_selector_eq s h
    have h2 : lastIdx (acc ++ [{ s with index := n + 1 }]) = n + 1 :=
      lastIdx_concat acc _
    simp only [List.foldl_cons, he]
    rw [ih _ _ h2]
    simp [List.range'_succ]

theorem foldl_prepend_headIdx :
    ∀ (sels acc : List Selector),
      headIdx (sels.foldl prepend_selector acc) = headIdx acc + sels.length := by
  intro sels
  induction sels with
  | nil => intro acc; simp
  | cons s ss ih =>
    intro acc
    rw [List.foldl_cons, ih]
    have : headIdx (prepend_selector acc s) = headIdx acc + 1 := by
      cases acc <;> simp [prepend_selector, headIdx]
    rw [this]
    simp [List.length_cons]
    omega

/-! ## The decoding loop against the amended line discipline -/

theorem psl_lines_spec :
    ∀ (ls : List (List Char)) (acc : List Selector) (n : Nat), lastIdx acc = n →
      parse_selector_list_lines ls acc =
        acc ++ numberEntries (n + 1)
          (ls.takeWhile (fun l => !(l.isEmpty || l.head? == some '.'))) := by
  intro ls
  induction ls with
  | nil => intro acc n h; simp [parse_selector_list_lines, numberEntries]
  | cons l ls ih =>
    intro acc n h
    cases l with
    | nil => simp [parse_selector_list_lines, List.takeWhile_cons, numberEntries]
    | cons c rest =>
      by_cases hc : c = '.'
      · subst hc
        simp [parse_selector_list_lines, List.takeWhile_cons, numberEntries]
      · have hpred : (!((c :: rest).isEmpty || (c :: rest).head? == some '.')) = true := by
          simp [hc]
        have he := append_selector_eq (menuEntryOfLine c rest) h
        have h2 : lastIdx (acc ++ [{ menuEntryOfLine c rest with index := n + 1 }]) = n + 1 :=
          lastIdx_concat acc _
        simp only [parse_selector_list_lines, if_neg hc, he]
        rw [ih _ _ h2]
        simp [List.takeWhile_cons, hpred, hc, numberEntries]

theorem prepend_selector_head (list : List Selector) (sel : Selector) :
    (prepend_selector list sel).head? = some { sel with index := headIdx list + 1 } := by
  cases list <;> simp [prepend_selector, headIdx]

/-! # Claims -/

/-- C8: parsing an empty locator string (or a `NULL` one, as handed over by
an exhausted `next_token`) yields no selector. -/
theorem c8_parse_empty_fails :
    parse_selector_c none = none ∧ parse_selector [] = none ∧
    parse_selector_c (some []) = none :=
  ⟨rfl, rfl, rfl⟩

/-- C9: variable stores are case-insensitive: `set` under one capitalization
followed by a pure lookup (`set` with a `NULL` value) under any other
capitalization of the same name returns the stored value (`"Foo"`/`"foo"`
instance first, the general law second), and `set` finds-or-creates, so it
never introduces two entries with the same case-insensitive name. -/
theorem c9_set_var_case_insensitive :
    ((set_var (set_var [] (some ("Foo".data)) (some ['1'])).2
        (some ("foo".data)) none).1 = some ['1'])
    ∧ (∀ (store : List Variable) (n1 n2 v : List Char), lowerEq n1 n2 = true →
        (set_var (set_var store (some n1) (some v)).2 (some n2) none).1 =
          some (v.take 1023))
    ∧ (∀ (store : List Variable) (n v : List Char), PairwiseCI store →
        PairwiseCI (set_var store (some n) (some v)).2) := by
  refine ⟨by decide, ?_, ?_⟩
  · intro store n1 n2 v h
    have hcong : ∀ x : Variable, lowerEq x.name n2 = lowerEq x.name n1 :=
      fun x => (lowerEq_congr h x.name).symm
    cases hf : store.find? (fun x => lowerEq x.name n1) with
    | some w =>
      have hset : (set_var store (some n1) (some v)).2 =
          replace_first_var store n1 (v.take 1023) := by
        simp [set_var, hf]
      have h2 : (replace_first_var store n1 (v.take 1023)).find?
          (fun x => lowerEq x.name n2) = some { w with data := v.take 1023 } := by
        rw [find?_pred_congr hcong _]
        exact @find?_replace_first store n1 (v.take 1023) w hf
      rw [hset]
      simp [set_var, h2]
    | none =>
      have hset : (set_var store (some n1) (some v)).2 =
          { name := n1, data := v.take 1023 } :: store := by
        simp [set_var, hf]
      have hhead : (fun x : Variable => lowerEq x.name n2)
          { name := n1, data := v.take 1023 } = true := h
      rw [hset]
      simp only [set_var]
      simp [List.find?_cons, h]
  · intro store n v hp
    cases hf : store.find? (fun x => lowerEq x.name n) with
    | some w =>
      have hset : (set_var store (some n) (some v)).2 =
          replace_first_var store n (v.take 1023) := by
        simp [set_var, hf]
      rw [hset]
      unfold PairwiseCI at *
      rw [names_replace_first]
      exact hp
    | none =>
      have hset : (set_var store (some n) (some v)).2 =
          { name := n, data := v.take 1023 } :: store := by
        simp [set_var, hf]
      rw [hset]
      unfold PairwiseCI at *
      simp only [List.map_cons]
      refine List.Pairwise.cons ?_ hp
      intro b hb
      obtain ⟨x, hx, rfl⟩ := List.mem_map.mp hb
      have hne := List.find?_eq_none.mp hf x hx
      rw [lowerEq_symm]
      simpa using hne

/-- C9 witness: the general case-insensitive lookup law at a concrete
store, name pair and value. -/
theorem c9_set_var_case_insensitive_witness :
    (set_var (set_var [] (some ("Bar".data)) (some ['2'])).2
        (some ("bAR".data)) none).1 = some (['2'].take 1023) :=
  c9_set_var_case_insensitive.2.1 [] ("Bar".data) ("bAR".data) ['2'] (by decide)

/-- C7: appending N selectors to an empty list numbers them 1..N, and
prepend sets the new head's index to the old head's index plus one (1 for an
empty list) — hence prepending to a chain built by N prepends (whose head
index is N) yields head index N+1.  The claim's bare "list of size N"
version is false; see the counterexample. -/
theorem c7_list_index_discipline :
    (∀ sels : List Selector,
        (appendAll sels).map Selector.index = List.range' 1 sels.length)
    ∧ (∀ (list : List Selector) (sel : Selector),
        (prepend_selector list sel).head? = some { sel with index := headIdx list + 1 })
    ∧ (∀ (sels : List Selector) (t : Selector),
        (prepend_selector (prependAll sels) t).head? =
          some { t with index := sels.length + 1 }) := by
  refine ⟨?_, ?_, ?_⟩
  · intro sels
    have h := foldl_append_indices sels [] 0 rfl
    simpa [appendAll] using h
  · intro list sel
    exact prepend_selector_head list sel
  · intro sels t
    have h1 := foldl_prepend_headIdx sels []
    have h2 : headIdx (prependAll sels) = sels.length := by
      simpa [prependAll, headIdx] using h1
    rw [prepend_selector_head, h2]

/-- C7 counterexample: prepending to an append-built list of size 2 gives
the new head index 2 (old head's index 1, plus one), not 2 + 1. -/
theorem c7_counterexample :
    ¬ ((prepend_selector (appendAll [selZero, selZero]) selZero).head?.map Selector.index
        = some ((appendAll [selZero, selZero]).length + 1)) := by
  decide

/-- C2 (amended): menu decoding equals the amended line discipline: lines
come from the `str_split`/`str_skip` loop, under which runs of CR/LF
collapse (an empty line only occurs when the input begins with CR/LF);
decoding stops at an empty line or a line whose first character is `'.'`;
each remaining line's first character is the type and the rest splits on
tabs into name, path, host, port with missing fields empty; entries are
numbered 1..k; decoding is total and never fails. -/
theorem c2_menu_decode_amended :
    ∀ s : List Char, parse_selector_list s = decodeMenuAmended s := by
  intro s
  have h := psl_lines_spec (toLines s) [] 0 rfl
  simpa [parse_selector_list, decodeMenuAmended] using h

/-- C2 counterexample: the decoder the claim describes (stop only at a line
that is exactly `"."`, every CR/LF a line boundary) disagrees with the code:
a line merely starting with `'.'` stops the code's decoder, and a blank line
between entries does not stop it. -/
theorem c2_menu_decode_counterexample :
    decodeMenuClaim menuCxDot ≠ parse_selector_list menuCxDot ∧
    decodeMenuClaim menuCxBlank ≠ parse_selector_list menuCxBlank :=
  ⟨by decide, by decide⟩

/-- C3: evaluating `"alias a a\n a\n"` defines the self-referential alias
and then expands it exactly 10 times (the configured ceiling) before the
nesting guard reports "eval() nested too deeply"; and whenever `eval` is
entered with the nesting counter at 10 or more it fails immediately,
reporting only that error and executing nothing. -/
theorem c3_alias_nesting_limit :
    ((eval refuseAll 0 initState ("alias a a\n a\n".data) none).log =
       List.replicate 10 (Event.aliasExpanded ['a']) ++ [Event.errNestedTooDeep])
    ∧ (∀ (tp : Transport) (n : Nat) (st : GState) (input : List Char)
         (fn : Option (List Char)), 10 ≤ n → st.quit = false →
         eval tp n st input fn = pushEvent st Event.errNestedTooDeep) := by
  constructor
  · decide
  · intro tp n st input fn hn hq
    unfold eval
    have h0 : 10 - n = 0 := by omega
    rw [h0]
    simp [evalFuel, hq]

/-- C3 witness: the immediate-failure law at the ceiling itself. -/
theorem c3_alias_nesting_limit_witness :
    eval refuseAll 10 initState ['x'] none = pushEvent initState Event.errNestedTooDeep :=
  c3_alias_nesting_limit.2 refuseAll 10 initState ['x'] none (by decide) rfl


theorem download_frame (tp : Transport) (st : GState) (sel : Selector)
    (q : Option (List Char)) :
    (download tp st sel q).2.menu = st.menu ∧
    (download tp st sel q).2.history = st.history := by
  cases htp : tp sel q with
  | error e => cases e <;> simp [download, htp, pushEvent]
  | ok d => simp [download, htp]

theorem download_to_menu_frame (tp : Transport) (st : GState) (sel : Selector)
    (q : Option (List Char)) :
    (download_to_menu tp st sel q).2.menu = st.menu ∧
    (download_to_menu tp st sel q).2.history = st.history := by
  have h := download_frame tp st sel q
  cases hd : download tp st sel q with
  | mk o st2 =>
    rw [hd] at h
    cases o <;> simpa [download_to_menu, hd] using h

theorem navigate_menu_empty (tp : Transport) (pe : Bool) (st : GState)
    (tgt : Selector) (q : Option (List Char))
    (h : (download_to_menu tp st tgt q).1 = []) :
    navigate_menu tp pe st tgt q = (download_to_menu tp st tgt q).2 := by
  cases hd : download_to_menu tp st tgt q with
  | mk l st2 =>
    rw [hd] at h
    subst h
    simp [navigate_menu, hd]

/-- C4: when `navigate` on a menu (`'1'`) or search (`'7'`) selector finds
`download_to_menu` returning nothing — for any reason: hostname resolution
failure, every connection refused, or a response that decodes to the empty
(`NULL`) list — both the current menu and the history are left exactly as
they were: no partial replacement, no history push.  In particular, a host
that refuses all connections yields the connection error report and leaves
the menu unchanged. -/
theorem c4_nav_failure_preserves_state :
    (∀ (tp : Transport) (pe : Bool) (st : GState) (tgt : Selector),
      (tgt.type = '1' ∨ tgt.type = '7') →
      (∀ (st' : GState) (q : Option (List Char)),
        (download_to_menu tp st' tgt q).1 = []) →
      (navigate tp pe st (some tgt)).menu = st.menu ∧
      (navigate tp pe st (some tgt)).history = st.history)
    ∧ (∀ (tp : Transport) (pe : Bool) (st : GState) (tgt : Selector),
      (tgt.type = '1' ∨ tgt.type = '7') →
      (∀ q, tp tgt q = Except.error NetErr.connectFail) →
      (navigate tp pe st (some tgt)).menu = st.menu ∧
      (navigate tp pe st (some tgt)).history = st.history ∧
      (navigate tp pe st (some tgt)).log =
        st.log ++ [Event.errCannotConnect tgt.host tgt.port]) := by
  constructor
  · intro tp pe st tgt hty hempty
    rcases hty with h1 | h7
    · have hne : ¬ (tgt.type = '7') := by rw [h1]; decide
      simp only [navigate, if_neg hne, if_pos h1]
      rw [navigate_menu_empty tp pe st tgt none (hempty st none)]
      exact download_to_menu_frame tp st tgt none
    · simp only [navigate, if_pos h7]
      rw [navigate_menu_empty tp pe (read_line st).2 tgt (read_line st).1
        (hempty (read_line st).2 (read_line st).1)]
      have hf := read_line_frame st
      have hdf := download_to_menu_frame tp (read_line st).2 tgt (read_line st).1
      exact ⟨hdf.1.trans hf.1, hdf.2.trans hf.2.1⟩
  · intro tp pe st tgt hty htp
    have hdl : ∀ (st' : GState) (q : Option (List Char)),
        navigate_menu tp pe st' tgt q =
          pushEvent st' (Event.errCannotConnect tgt.host tgt.port) := by
      intro st' q
      simp [navigate_menu, download_to_menu, download, htp q]
    rcases hty with h1 | h7
    · have hne : ¬ (tgt.type = '7') := by rw [h1]; decide
      simp only [navigate, if_neg hne, if_pos h1]
      rw [hdl]
      simp [pushEvent]
    · simp only [navigate, if_pos h7]
      rw [hdl]
      have hf := read_line_frame st
      simp [pushEvent, hf.1, hf.2.1, hf.2.2.1]

/-- C4 witness: a connected host whose response decodes to the empty menu,
and a host refusing every connection, both on a type-`'1'` selector. -/
theorem c4_nav_failure_preserves_state_witness :
    ((navigate emptyMenuTransport false initState (some selZero)).menu =
        initState.menu ∧
      (navigate emptyMenuTransport false initState (some selZero)).history =
        initState.history) ∧
    ((navigate refuseAll false initState (some selZero)).menu = initState.menu ∧
      (navigate refuseAll false initState (some selZero)).history =
        initState.history ∧
      (navigate refuseAll false initState (some selZero)).log =
        initState.log ++ [Event.errCannotConnect selZero.host selZero.port]) :=
  ⟨c4_nav_failure_preserves_state.1 emptyMenuTransport false initState selZero
      (Or.inl rfl) (fun _ _ => rfl),
    c4_nav_failure_preserves_state.2 refuseAll false initState selZero
      (Or.inl rfl) (fun _ => rfl)⟩

/-- C5: a successful `navigate` on a type-`'1'` selector replaces the menu
wholesale with the decoded list and pushes a copy of the navigated selector
onto the history unless the selector is (pointer-wise) already the history
head; concretely, `open gopher://example.org/1/` against the stub transport
of the spec's example produces the one-entry "Demo Menu" menu and pushes
the opened selector. -/
theorem c5_nav_success :
    ((eval stubDemoTransport 0 initState ("open gopher://example.org/1/".data) none).menu =
        [{ index := 1, type := '1', name := "Demo Menu".data, host := "example.org".data,
           port := "70".data, path := "/demo".data }]
     ∧ (eval stubDemoTransport 0 initState ("open gopher://example.org/1/".data) none).history =
        [{ index := 1, type := '1', name := "gopher://example.org:70/1/".data,
           host := "example.org".data, port := "70".data, path := ['/'] }])
    ∧ (∀ (tp : Transport) (pe : Bool) (st : GState) (tgt : Selector) (bytes : List Char),
        tgt.type = '1' → tp tgt none = Except.ok bytes →
        parse_selector_list bytes ≠ [] →
        (navigate tp pe st (some tgt)).menu = parse_selector_list bytes ∧
        (navigate tp pe st (some tgt)).history =
          (if pe then st.history
           else prepend_selector st.history (copy_selector tgt))) := by
  constructor
  · exact ⟨by decide, by decide⟩
  · intro tp pe st tgt bytes h1 hok hne
    have hne7 : ¬ (tgt.type = '7') := by rw [h1]; decide
    have hd : download_to_menu tp st tgt none = (parse_selector_list bytes, st) := by
      simp [download_to_menu, download, hok]
    cases hpl : parse_selector_list bytes with
    | nil => exact absurd hpl hne
    | cons x xs =>
      rw [hpl] at hd
      cases pe <;>
        simp [navigate, if_neg hne7, if_pos h1, navigate_menu, hd, hpl]

/-- C5 witness: the general success law at the stub transport. -/
theorem c5_nav_success_witness :
    (navigate stubDemoTransport false initState (some selZero)).menu =
      parse_selector_list demoBytes ∧
    (navigate stubDemoTransport false initState (some selZero)).history =
      (if false then initState.history
       else prepend_selector initState.history (copy_selector selZero)) :=
  c5_nav_success.2 stubDemoTransport false initState selZero demoBytes rfl rfl
    (by decide)


/-! ## Locator grammar facts for parse/print -/

theorem contains_single_eq_false {c d : Char} (h : c ≠ d) :
    ([d] : List Char).contains c = false := by
  simp [h]

theorem portOpt_no_slash {pOpt : Option (List Char)} (hp : PortOpt pOpt) :
    ∀ p, pOpt = some p → ∀ c ∈ p, c ≠ '/' := by
  intro p hps c hc he
  have hd := (hp p hps).2 c hc
  rw [he] at hd
  simp at hd

/-- `parse_selector_body` on an explicit grammar decomposition. -/
theorem parse_body_at (host : List Char) (pOpt tOpt : Option (List Char))
    (hh : CleanHost host) (hp : ∀ p, pOpt = some p → ∀ c ∈ p, c ≠ '/') :
    parse_selector_body (host ++ ppChars pOpt ++ tlChars tOpt) =
      mkParsedSel host (portOfOpt pOpt) (typeOfOpt tOpt) (pathOfOpt tOpt) := by
  have hhp : ∀ c ∈ host, (!(c = ':' ∨ c = '/')) = true := by
    intro c hc
    have h1 := (hh c hc).1
    have h2 := (hh c hc).2
    simp [h1, h2]
  have hhcolon : ∀ c ∈ host, ([':'] : List Char).contains c = false := by
    intro c hc; exact contains_single_eq_false (hh c hc).1
  have hhslash : ∀ c ∈ host, (['/'] : List Char).contains c = false := by
    intro c hc; exact contains_single_eq_false (hh c hc).2
  cases pOpt with
  | some p =>
    have hps : ∀ c ∈ p, (['/'] : List Char).contains c = false := by
      intro c hc; exact contains_single_eq_false (hp p rfl c hc)
    have hassoc : host ++ ppChars (some p) ++ tlChars tOpt =
        host ++ ':' :: (p ++ tlChars tOpt) := by
      simp [ppChars]
    have hdw : (host ++ ':' :: (p ++ tlChars tOpt)).dropWhile
        (fun c => !(c = ':' ∨ c = '/')) = ':' :: (p ++ tlChars tOpt) := by
      rw [dropWhile_append_all hhp]
      simp [List.dropWhile_cons]
    have hsplit1 : str_split (host ++ ':' :: (p ++ tlChars tOpt)) [':'] =
        (some host, p ++ tlChars tOpt) :=
      str_split_append hhcolon (by simp)
    cases tOpt with
    | some t =>
      have hsplit2 : str_split (p ++ tlChars (some t)) ['/'] = (some p, t) := by
        simpa [tlChars] using str_split_append hps (by simp)
      rw [hassoc]
      unfold parse_selector_body
      simp only [hdw, List.head?_cons, hsplit1, hsplit2]
      cases t with
      | nil => simp [str_copy, portOfOpt, typeOfOpt, pathOfOpt]
      | cons c cs => simp [str_copy, portOfOpt, typeOfOpt, pathOfOpt]
    | none =>
      rw [hassoc]
      cases hpn : p with
      | nil =>
        rw [hpn] at hdw hsplit1
        unfold parse_selector_body
        simp only [tlChars, List.nil_append, List.append_nil] at hdw hsplit1 ⊢
        simp only [hdw, List.head?_cons, hsplit1]
        simp [str_split, str_copy, portOfOpt, typeOfOpt, pathOfOpt]
      | cons c cs =>
        have hsplit2 : str_split (p ++ tlChars none) ['/'] = (some p, []) := by
          have hx := str_split_no_delim (l := p) (by rw [hpn]; simp) hps
          simpa [tlChars] using hx
        rw [hpn] at hdw hsplit1 hsplit2
        unfold parse_selector_body
        simp only [hdw, List.head?_cons, hsplit1, hsplit2]
        simp [str_copy, portOfOpt, typeOfOpt, pathOfOpt]
  | none =>
    cases tOpt with
    | some t =>
      have hassoc : host ++ ppChars none ++ tlChars (some t) = host ++ '/' :: t := by
        simp [ppChars, tlChars]
      have hdw : (host ++ '/' :: t).dropWhile (fun c => !(c = ':' ∨ c = '/')) =
          '/' :: t := by
        rw [dropWhile_append_all hhp]
        simp [List.dropWhile_cons]
      have hsplit1 : str_split (host ++ '/' :: t) ['/'] = (some host, t) :=
        str_split_append hhslash (by simp)
      rw [hassoc]
      unfold parse_selector_body
      simp only [hdw, List.head?_cons, hsplit1]
      cases t with
      | nil => simp [str_copy, portOfOpt, typeOfOpt, pathOfOpt]
      | cons c cs => simp [str_copy, portOfOpt, typeOfOpt, pathOfOpt]
    | none =>
      have hassoc : host ++ ppChars none ++ tlChars none = host := by
        simp [ppChars, tlChars]
      have hdw : host.dropWhile (fun c => !(c = ':' ∨ c = '/')) = [] :=
        dropWhile_all hhp
      rw [hassoc]
      unfold parse_selector_body
      simp only [hdw, List.head?_nil]
      simp [portOfOpt, typeOfOpt, pathOfOpt]

/-- When the locator carries no explicit `gopher://`, the grammar shape
guarantees the scheme test also fails: a clean host cannot fake the
scheme's `://` at position 6. -/
theorem scheme_not_prefix (host : List Char) (pOpt tOpt : Option (List Char))
    (_hne : host ≠ []) (hh : CleanHost host) (hp : PortOpt pOpt) :
    gopherScheme.isPrefixOf (host ++ ppChars pOpt ++ tlChars tOpt) = false := by
  by_contra hcontra
  have hpf : gopherScheme.isPrefixOf (host ++ ppChars pOpt ++ tlChars tOpt) = true := by
    revert hcontra
    cases gopherScheme.isPrefixOf (host ++ ppChars pOpt ++ tlChars tOpt) <;> simp
  obtain ⟨r, hr⟩ := List.isPrefixOf_iff_prefix.mp hpf
  have hhp : ∀ c ∈ host, (!(c = ':' ∨ c = '/')) = true := by
    intro c hc
    have h1 := (hh c hc).1
    have h2 := (hh c hc).2
    simp [h1, h2]
  have hL : (gopherScheme ++ r).takeWhile (fun c => !(c = ':' ∨ c = '/')) =
      ['g', 'o', 'p', 'h', 'e', 'r'] := by
    simp [gopherScheme, List.takeWhile_cons]
  have hLd : (gopherScheme ++ r).dropWhile (fun c => !(c = ':' ∨ c = '/')) =
      ':' :: '/' :: '/' :: r := by
    simp [gopherScheme, List.dropWhile_cons]
  have htail : (ppChars pOpt ++ tlChars tOpt).takeWhile
      (fun c => !(c = ':' ∨ c = '/')) = [] := by
    cases pOpt with
    | some p => simp [ppChars, List.takeWhile_cons]
    | none =>
      cases tOpt with
      | some t => simp [ppChars, tlChars, List.takeWhile_cons]
      | none => simp [ppChars, tlChars]
  have hR : (host ++ ppChars pOpt ++ tlChars tOpt).takeWhile
      (fun c => !(c = ':' ∨ c = '/')) = host := by
    rw [List.append_assoc, takeWhile_append_all hhp, htail, List.append_nil]
  have hhost : host = ['g', 'o', 'p', 'h', 'e', 'r'] := by
    rw [← hR, ← hr, hL]
  have hRd : (host ++ ppChars pOpt ++ tlChars tOpt).dropWhile
      (fun c => !(c = ':' ∨ c = '/')) = ppChars pOpt ++ tlChars tOpt := by
    rw [List.append_assoc, dropWhile_append_all hhp]
    cases pOpt with
    | some p => simp [ppChars, List.dropWhile_cons]
    | none =>
      cases tOpt with
      | some t => simp [ppChars, tlChars, List.dropWhile_cons]
      | none => simp [ppChars, tlChars]
  have heq : ppChars pOpt ++ tlChars tOpt = ':' :: '/' :: '/' :: r := by
    rw [← hRd, ← hr, hLd]
  cases pOpt with
  | none =>
    cases tOpt with
    | none => simp [ppChars, tlChars] at heq
    | some t =>
      simp [ppChars, tlChars] at heq
  | some p =>
    simp only [ppChars, List.cons_append, List.cons.injEq] at heq
    have hpeq : p ++ tlChars tOpt = '/' :: '/' :: r := heq.2
    obtain ⟨hpne, hpdig⟩ := hp p rfl
    cases hpc : p with
    | nil => exact hpne hpc
    | cons c cs =>
      rw [hpc] at hpeq
      simp only [List.cons_append, List.cons.injEq] at hpeq
      have hcd : c.isDigit = true := hpdig c (by rw [hpc]; exact List.mem_cons_self c cs)
      rw [hpeq.1] at hcd
      simp at hcd

theorem parse_selector_of_ne_nil {s : List Char} (h : s ≠ []) :
    parse_selector s = some (parse_selector_body
      (if gopherScheme.isPrefixOf s then s.drop 9 else s)) := by
  cases s with
  | nil => exact absurd rfl h
  | cons a as => rfl

/-- `parse_selector` on a grammar-accepted locator. -/
theorem parse_grammar (pfx : Bool) (host : List Char)
    (pOpt tOpt : Option (List Char)) (hne : host ≠ []) (hh : CleanHost host)
    (hp : PortOpt pOpt) :
    parse_selector (locatorString pfx host pOpt tOpt) =
      some (mkParsedSel host (portOfOpt pOpt) (typeOfOpt tOpt) (pathOfOpt tOpt)) := by
  have hbody := parse_body_at host pOpt tOpt hh (portOpt_no_slash hp)
  cases pfx with
  | true =>
    have hstrip : gopherScheme.isPrefixOf
        (gopherScheme ++ (host ++ ppChars pOpt ++ tlChars tOpt)) = true :=
      List.isPrefixOf_iff_prefix.mpr (List.prefix_append _ _)
    have hdrop : (gopherScheme ++ (host ++ ppChars pOpt ++ tlChars tOpt)).drop 9 =
        host ++ ppChars pOpt ++ tlChars tOpt := by
      have h9 : (9 : Nat) = gopherScheme.length := rfl
      rw [h9, List.drop_left]
    have hloc : locatorString true host pOpt tOpt =
        gopherScheme ++ (host ++ ppChars pOpt ++ tlChars tOpt) := by
      simp [locatorString]
    rw [hloc, parse_selector_of_ne_nil (by simp [gopherScheme])]
    simp only [hstrip, if_true, hdrop, hbody]
  | false =>
    have hnopfx := scheme_not_prefix host pOpt tOpt hne hh hp
    have hloc : locatorString false host pOpt tOpt =
        host ++ ppChars pOpt ++ tlChars tOpt := by
      simp [locatorString]
    have hne2 : host ++ ppChars pOpt ++ tlChars tOpt ≠ [] := by
      cases host with
      | nil => exact absurd rfl hne
      | cons a as => simp
    rw [hloc, parse_selector_of_ne_nil hne2]
    simp only [hnopfx, Bool.false_eq_true, if_false, hbody]

/-- Re-parsing the untruncated serialization of a selector with a clean host
and a slash-free port recovers exactly the canonical parsed selector. -/
theorem parse_serialize (sel : Selector) (hh : CleanHost sel.host)
    (hp : ∀ c ∈ sel.port, c ≠ '/') :
    parse_selector (serialize_selector sel true) =
      some (mkParsedSel sel.host sel.port sel.type sel.path) := by
  have hbody := parse_body_at sel.host (some sel.port) (some (sel.type :: sel.path))
    hh (by intro p hps c hc; cases hps; exact hp c hc)
  have hser : serialize_selector sel true =
      gopherScheme ++ (sel.host ++ ppChars (some sel.port) ++
        tlChars (some (sel.type :: sel.path))) := by
    simp [serialize_selector, ppChars, tlChars]
  have hstrip : gopherScheme.isPrefixOf
      (gopherScheme ++ (sel.host ++ ppChars (some sel.port) ++
        tlChars (some (sel.type :: sel.path)))) = true :=
    List.isPrefixOf_iff_prefix.mpr (List.prefix_append _ _)
  have hdrop : (gopherScheme ++ (sel.host ++ ppChars (some sel.port) ++
      tlChars (some (sel.type :: sel.path)))).drop 9 =
      sel.host ++ ppChars (some sel.port) ++ tlChars (some (sel.type :: sel.path)) := by
    have h9 : (9 : Nat) = gopherScheme.length := rfl
    rw [h9, List.drop_left]
  rw [hser, parse_selector_of_ne_nil (by simp [gopherScheme])]
  simp only [hstrip, if_true, hdrop, hbody]
  simp [portOfOpt, typeOfOpt, pathOfOpt]


/-- C1 (amended): for every locator accepted by the grammar
`[gopher://]host[:port][/<type><path>]`, parsing succeeds and yields host,
port (defaulting to `"70"` when omitted), type (defaulting to `'1'` when the
locator has no character after `host[:port]/`) and path as the grammar
decomposition reads them; and provided the canonical serialized form fits
`print_selector`'s 1024-byte buffer (length at most 1023), printing with the
prefix re-parses to the very same selector (idempotent normalization).  The
length proviso is forced by the buffer truncation; see the counterexample. -/
theorem c1_roundtrip_normalization :
    ∀ (pfx : Bool) (host : List Char) (pOpt tOpt : Option (List Char)),
      host ≠ [] → CleanHost host → PortOpt pOpt →
      parse_selector (locatorString pfx host pOpt tOpt) =
        some (mkParsedSel host (portOfOpt pOpt) (typeOfOpt tOpt) (pathOfOpt tOpt))
      ∧ (mkParsedSel host (portOfOpt pOpt) (typeOfOpt tOpt) (pathOfOpt tOpt)).host = host
      ∧ (mkParsedSel host (portOfOpt pOpt) (typeOfOpt tOpt) (pathOfOpt tOpt)).port = portOfOpt pOpt
      ∧ (mkParsedSel host (portOfOpt pOpt) (typeOfOpt tOpt) (pathOfOpt tOpt)).type = typeOfOpt tOpt
      ∧ (mkParsedSel host (portOfOpt pOpt) (typeOfOpt tOpt) (pathOfOpt tOpt)).path = pathOfOpt tOpt
      ∧ ((serialize_selector (mkParsedSel host (portOfOpt pOpt) (typeOfOpt tOpt)
            (pathOfOpt tOpt)) true).length ≤ 1023 →
          parse_selector (print_selector (mkParsedSel host (portOfOpt pOpt)
            (typeOfOpt tOpt) (pathOfOpt tOpt)) true) =
            some (mkParsedSel host (portOfOpt pOpt) (typeOfOpt tOpt) (pathOfOpt tOpt))) := by
  intro pfx host pOpt tOpt hne hh hp
  refine ⟨parse_grammar pfx host pOpt tOpt hne hh hp, rfl, rfl, rfl, rfl, ?_⟩
  intro hlen
  have hpns : ∀ c ∈ portOfOpt pOpt, c ≠ '/' := by
    cases pOpt with
    | none =>
      intro c hc
      simp [portOfOpt] at hc
      rcases hc with rfl | rfl <;> decide
    | some p => exact portOpt_no_slash hp p rfl
  have hpr : print_selector (mkParsedSel host (portOfOpt pOpt) (typeOfOpt tOpt)
      (pathOfOpt tOpt)) true =
      serialize_selector (mkParsedSel host (portOfOpt pOpt) (typeOfOpt tOpt)
        (pathOfOpt tOpt)) true := by
    simp [print_selector, List.take_of_length_le hlen]
  rw [hpr]
  exact parse_serialize _ hh hpns

/-- C1 witness: the round trip at `gopher://example.org/1/`. -/
theorem c1_roundtrip_normalization_witness :
    parse_selector (print_selector (mkParsedSel ("example.org".data)
      (portOfOpt none) (typeOfOpt (some ('1' :: ['/'])))
      (pathOfOpt (some ('1' :: ['/'])))) true) =
    some (mkParsedSel ("example.org".data) (portOfOpt none)
      (typeOfOpt (some ('1' :: ['/']))) (pathOfOpt (some ('1' :: ['/'])))) :=
  (c1_roundtrip_normalization true ("example.org".data) none (some ('1' :: ['/']))
    (by decide) (by unfold CleanHost; decide) (by intro p hp; cases hp)).2.2.2.2.2
    (by decide)

/-- C1 counterexample: a grammar-accepted locator whose canonical form
exceeds the 1024-byte `print_selector` buffer does not round-trip: the
re-parsed path differs from the first parse's path (it is truncated). -/
theorem c1_roundtrip_counterexample :
    GrammarLocator c1LongLocator ∧
    ((parse_selector c1LongLocator).map Selector.path ≠
      ((parse_selector c1LongLocator).bind
        (fun s1 => parse_selector (print_selector s1 true))).map Selector.path) := by
  constructor
  · refine ⟨false, ['h'], some ['7', '0'], some ('1' :: List.replicate 1010 'a'),
      ?_, by decide, by unfold CleanHost; decide, ?_⟩
    · rfl
    · intro p hp
      cases hp
      exact ⟨by decide, by decide⟩
  · decide

/-- C10: `print_selector` renders through a fixed 1024-byte buffer: its
output never exceeds 1023 characters; it equals the full serialization
whenever that fits, and is silently truncated otherwise (concretely at a
selector whose host, port, type and path together overflow the buffer); the
parse/print round trip therefore holds for selectors whose serialized form
is at most 1023 bytes; and printing no selector gives the empty string. -/
theorem c10_print_selector_truncation :
    (∀ (sel : Selector) (b : Bool), (print_selector sel b).length ≤ 1023)
    ∧ (∀ (sel : Selector) (b : Bool), (serialize_selector sel b).length ≤ 1023 →
        print_selector sel b = serialize_selector sel b)
    ∧ (print_selector longPathSel true ≠ serialize_selector longPathSel true ∧
        (print_selector longPathSel true).length = 1023 ∧
        (serialize_selector longPathSel true).length = 1035)
    ∧ (∀ sel : Selector, CleanHost sel.host → (∀ c ∈ sel.port, c ≠ '/') →
        (serialize_selector sel true).length ≤ 1023 →
        parse_selector (print_selector sel true) =
          some (mkParsedSel sel.host sel.port sel.type sel.path)
        ∧ (mkParsedSel sel.host sel.port sel.type sel.path).type = sel.type
        ∧ (mkParsedSel sel.host sel.port sel.type sel.path).host = sel.host
        ∧ (mkParsedSel sel.host sel.port sel.type sel.path).port = sel.port
        ∧ (mkParsedSel sel.host sel.port sel.type sel.path).path = sel.path)
    ∧ (∀ b, print_selector_c none b = []) := by
  refine ⟨?_, ?_, ⟨by decide, by decide, by decide⟩, ?_, fun b => rfl⟩
  · intro sel b
    simp [print_selector, List.length_take]
  · intro sel b h
    simp [print_selector, List.take_of_length_le h]
  · intro sel hh hp hlen
    refine ⟨?_, rfl, rfl, rfl, rfl⟩
    have hpr : print_selector sel true = serialize_selector sel true := by
      simp [print_selector, List.take_of_length_le hlen]
    rw [hpr]
    exact parse_serialize sel hh hp

/-- C10 witness: buffer bound, exact print and round trip at a concrete
short selector. -/
theorem c10_print_selector_truncation_witness :
    parse_selector (print_selector demoSel true) =
      some (mkParsedSel demoSel.host demoSel.port demoSel.type demoSel.path) :=
  (c10_print_selector_truncation.2.2.2.1 demoSel
    (by unfold CleanHost demoSel; decide) (by unfold demoSel; decide)
    (by decide)).1


/-! ## No built-in command ever reports an unknown command -/

theorem nnu_refl (st : GState) : NoNewUnknown st st :=
  ⟨[], by simp, by simp⟩

theorem nnu_trans {a b c : GState} (h1 : NoNewUnknown a b)
    (h2 : NoNewUnknown b c) : NoNewUnknown a c := by
  obtain ⟨L1, hl1, hu1⟩ := h1
  obtain ⟨L2, hl2, hu2⟩ := h2
  refine ⟨L1 ++ L2, by rw [hl2, hl1, List.append_assoc], ?_⟩
  intro e he
  rcases List.mem_append.mp he with h | h
  · exact hu1 e h
  · exact hu2 e h

theorem nnu_push {st : GState} {e : Event} (h : isUnknownEv e = false) :
    NoNewUnknown st (pushEvent st e) := by
  refine ⟨[e], rfl, ?_⟩
  intro x hx
  rw [List.mem_singleton.mp hx]
  exact h

theorem nnu_of_log_eq {st st' : GState} (h : st'.log = st.log) :
    NoNewUnknown st st' :=
  ⟨[], by simp [h], by simp⟩

theorem nnu_read_line (st : GState) : NoNewUnknown st (read_line st).2 :=
  nnu_of_log_eq (read_line_frame st).2.2.1

theorem nnu_download (tp : Transport) (st : GState) (sel : Selector)
    (q : Option (List Char)) : NoNewUnknown st (download tp st sel q).2 := by
  cases htp : tp sel q with
  | error e =>
    cases e with
    | resolveFail => simp only [download, htp]; exact nnu_push rfl
    | connectFail => simp only [download, htp]; exact nnu_push rfl
  | ok d => simp only [download, htp]; exact nnu_refl st

theorem nnu_download_to_menu (tp : Transport) (st : GState) (sel : Selector)
    (q : Option (List Char)) : NoNewUnknown st (download_to_menu tp st sel q).2 := by
  have h := nnu_download tp st sel q
  cases hd : download tp st sel q with
  | mk o st2 =>
    rw [hd] at h
    cases o <;> simpa [download_to_menu, hd] using h

theorem nnu_download_to_temp (tp : Transport) (st : GState) (sel : Selector) :
    NoNewUnknown st (download_to_temp tp st sel).2 := by
  have h := nnu_download tp st sel none
  cases hd : download tp st sel none with
  | mk o st2 =>
    rw [hd] at h
    cases o <;> simpa [download_to_temp, hd] using h

theorem nnu_download_to_file (tp : Transport) (st : GState) (sel : Selector) :
    NoNewUnknown st (download_to_file tp st sel) := by
  have h := nnu_download tp st sel none
  cases hd : download tp st sel none with
  | mk o st2 =>
    rw [hd] at h
    cases o with
    | none => simpa [download_to_file, hd] using h
    | some d =>
      simp only [download_to_file, hd]
      exact nnu_trans h (nnu_read_line st2)

theorem nnu_subst_loop (tp : Transport) (tgt : Selector) :
    ∀ (n : Nat) (hnd : List Char), hnd.length ≤ n →
      ∀ (st : GState) (acc : List Char) (l : Nat) (fm : Option (List Char)),
        NoNewUnknown st (subst_loop tp tgt hnd st acc l fm).2 := by
  intro n
  induction n with
  | zero =>
    intro hnd hlen st acc l fm
    have h0 : hnd = [] := List.length_eq_zero.mp (Nat.le_zero.mp hlen)
    subst h0
    rw [subst_loop]
    exact nnu_refl st
  | succ m ih =>
    intro hnd hlen st acc l fm
    cases hnd with
    | nil => rw [subst_loop]; exact nnu_refl st
    | cons h hs =>
      by_cases hcap : 1023 ≤ l
      · rw [subst_loop.eq_def]; simp only [if_pos hcap]; exact nnu_refl st
      · by_cases hpc : h = '%'
        · cases hs with
          | nil =>
            rw [subst_loop.eq_def]
            simp only [if_neg hcap, if_pos hpc]
            exact nnu_refl st
          | cons d hs2 =>
            have hlen2 : hs2.length ≤ m := by
              simp at hlen
              omega
            by_cases hdf : d = 'f'
            · rw [subst_loop.eq_def]
              simp only [if_neg hcap, if_pos hpc, if_pos hdf]
              cases fm with
              | some fn => exact ih hs2 hlen2 st _ _ _
              | none =>
                have hdt := nnu_download_to_temp tp st tgt
                cases hd : download_to_temp tp st tgt with
                | mk o st2 =>
                  rw [hd] at hdt
                  cases o with
                  | none => simpa using hdt
                  | some fn =>
                    simp only []
                    exact nnu_trans hdt (ih hs2 hlen2 st2 _ _ _)
            · rw [subst_loop.eq_def]
              simp only [if_neg hcap, if_pos hpc, if_neg hdf]
              exact ih hs2 hlen2 st _ _ _
        · rw [subst_loop.eq_def]
          simp only [if_neg hcap, if_neg hpc]
          have hlen1 : hs.length ≤ m := by
            simp at hlen
            omega
          exact ih hs hlen1 st _ _ _

theorem nnu_execute_handler (tp : Transport) (st : GState) (h : List Char)
    (tgt : Selector) : NoNewUnknown st (execute_handler tp st h tgt) := by
  have hs := nnu_subst_loop tp tgt h.length h (Nat.le_refl _) st [] 0 none
  cases hd : subst_loop tp tgt h st [] 0 none with
  | mk o st2 =>
    rw [hd] at hs
    cases o with
    | none => simpa [execute_handler, hd] using hs
    | some cmd =>
      simp only [execute_handler, hd]
      exact nnu_trans hs (nnu_push rfl)

theorem nnu_navigate_menu (tp : Transport) (pe : Bool) (st : GState)
    (tgt : Selector) (q : Option (List Char)) :
    NoNewUnknown st (navigate_menu tp pe st tgt q) := by
  have h := nnu_download_to_menu tp st tgt q
  cases hd : download_to_menu tp st tgt q with
  | mk l st2 =>
    rw [hd] at h
    cases l with
    | nil => simpa [navigate_menu, hd] using h
    | cons x xs =>
      refine nnu_trans h (nnu_of_log_eq ?_)
      cases pe <;> simp [navigate_menu, hd]

theorem nnu_navigate (tp : Transport) (pe : Bool) (st : GState)
    (tgt? : Option Selector) : NoNewUnknown st (navigate tp pe st tgt?) := by
  cases tgt? with
  | none => exact nnu_refl st
  | some tgt =>
    by_cases h7 : tgt.type = '7'
    · simp only [navigate, if_pos h7]
      exact nnu_trans (nnu_read_line st) (nnu_navigate_menu tp pe _ tgt _)
    · by_cases h1 : tgt.type = '1'
      · simp only [navigate, if_neg h7, if_pos h1]
        exact nnu_navigate_menu tp pe st tgt none
      · by_cases hb : tgt.type = '4' ∨ tgt.type = '5' ∨ tgt.type = '6' ∨ tgt.type = '9'
        · simp only [navigate, if_neg h7, if_neg h1, if_pos hb]
          exact nnu_download_to_file tp st tgt
        · by_cases hi : tgt.type = 'i' ∨ tgt.type = '3'
          · simp only [navigate, if_neg h7, if_neg h1, if_neg hb, if_pos hi]
            exact nnu_refl st
          · simp only [navigate, if_neg h7, if_neg h1, if_neg hb, if_neg hi]
            cases hh : find_selector_handler st.typehandlers tgt.type with
            | some hd => exact nnu_execute_handler tp st hd tgt
            | none =>
              by_cases h0 : tgt.type = '0'
              · simp only [if_pos h0]
                exact nnu_download tp st tgt none
              · simp only [if_neg h0]
                exact nnu_push rfl

theorem nnu_cmd_back (tp : Transport) (st : GState) (line : List Char) :
    NoNewUnknown st (cmd_back tp st line) := by
  cases hh : st.history with
  | nil => simp only [cmd_back, hh]; exact nnu_push rfl
  | cons h1 t =>
    cases t with
    | nil => simp only [cmd_back, hh]; exact nnu_push rfl
    | cons h2 rest =>
      simp only [cmd_back, hh]
      exact nnu_trans (nnu_of_log_eq rfl)
        (nnu_navigate tp true { st with history := h2 :: rest } (some h2))

theorem nnu_cmd_save (tp : Transport) (st : GState) (line : List Char) :
    NoNewUnknown st (cmd_save tp st line) := by
  cases hf : find_selector st.menu line with
  | none => simp only [cmd_save, hf]; exact nnu_refl st
  | some tgt => simp only [cmd_save, hf]; exact nnu_download_to_file tp st tgt

theorem nnu_cmd_history (tp : Transport) (st : GState) (line : List Char) :
    NoNewUnknown st (cmd_history tp st line) := by
  cases hf : find_selector st.history line with
  | none => simp only [cmd_history, hf]; exact nnu_refl st
  | some tgt =>
    simp only [cmd_history, hf]
    exact nnu_navigate tp _ st (some tgt)

theorem nnu_cmd_bookmarks (tp : Transport) (st : GState) (line : List Char) :
    NoNewUnknown st (cmd_bookmarks tp st line) := by
  simp only [cmd_bookmarks]
  split
  · exact nnu_navigate tp false st _
  · split
    · exact nnu_refl st
    · split
      · exact nnu_refl st
      · exact nnu_of_log_eq rfl

theorem builtin_no_unknown :
    ∀ c ∈ gopher_commands, ∀ (tp : Transport) (st : GState) (rest : List Char),
      NoNewUnknown st (c.run tp st rest) := by
  intro c hc tp st rest
  simp only [gopher_commands, List.mem_cons, List.not_mem_nil, or_false] at hc
  rcases hc with rfl | rfl | rfl | rfl | rfl | rfl | rfl | rfl | rfl | rfl | rfl | rfl
  · exact nnu_of_log_eq rfl
  · exact nnu_navigate tp false st _
  · exact nnu_refl st
  · exact nnu_cmd_save tp st rest
  · exact nnu_cmd_back tp st rest
  · exact nnu_refl st
  · exact nnu_cmd_history tp st rest
  · exact nnu_cmd_bookmarks tp st rest
  · exact nnu_of_log_eq rfl
  · exact nnu_refl st
  · exact nnu_of_log_eq rfl
  · exact nnu_of_log_eq rfl

/-- C6: line dispatch: an empty/comment line does nothing; the first token
is matched case-insensitively against the fixed built-in table and a match
runs that command, which never reports an unknown command (whatever errors
it does report are other kinds); with no built-in match, a matching alias is
expanded by a recursive `eval` of its stored value (a fresh copy — value
semantics here, `str_copy` in C — so the stored alias text is not mutated)
under the alias name as source label; only when the alias store also misses
is the unknown-command error raised, carrying the offending token, the
source label (file name, or none for interactive input) and the line
number. -/
theorem c6_dispatch_unknown_command :
    ∀ (tp : Transport) (f : Nat) (st : GState) (line : List Char)
      (fn : Option (List Char)) (no : Nat),
      ((next_token st.vars line).1 = none →
        evalLineWith tp (evalFuel tp f) st line fn no = st)
      ∧ (∀ tok rest, next_token st.vars line = (some tok, rest) →
          (∀ c, findBuiltin tok = some c →
            evalLineWith tp (evalFuel tp f) st line fn no = c.run tp st rest ∧
            NoNewUnknown st (c.run tp st rest))
          ∧ (findBuiltin tok = none →
              ∀ d, (set_var st.aliases (some tok) none).1 = some d →
                evalLineWith tp (evalFuel tp f) st line fn no =
                  evalFuel tp f (pushEvent st (Event.aliasExpanded tok)) d (some tok))
          ∧ (findBuiltin tok = none →
              (set_var st.aliases (some tok) none).1 = none →
                evalLineWith tp (evalFuel tp f) st line fn no =
                  pushEvent st (Event.errUnknownCommand tok fn no)))
      ∧ (∀ t1 t2 : List Char, lowerEq t1 t2 = true →
          findBuiltin t1 = findBuiltin t2) := by
  intro tp f st line fn no
  refine ⟨?_, ?_, ?_⟩
  · intro h
    cases hnt : next_token st.vars line with
    | mk o rest =>
      rw [hnt] at h
      simp at h
      subst h
      simp [evalLineWith, hnt]
  · intro tok rest hnt
    refine ⟨?_, ?_, ?_⟩
    · intro c hcb
      constructor
      · simp [evalLineWith, hnt, hcb]
      · exact builtin_no_unknown c (List.mem_of_find?_eq_some hcb) tp st rest
    · intro hb d hd
      simp [evalLineWith, hnt, hb, hd]
    · intro hb hd
      simp [evalLineWith, hnt, hb, hd]
  · intro t1 t2 h
    exact find?_pred_congr (fun x => lowerEq_congr h x.name) gopher_commands

/-- C6 witness: a token that is neither a built-in nor an alias raises
exactly the unknown-command report with token, label and line number. -/
theorem c6_dispatch_unknown_command_witness :
    evalLineWith refuseAll (evalFuel refuseAll 9) initState ("bogus".data) none 1 =
      pushEvent initState (Event.errUnknownCommand ("bogus".data) none 1) :=
  ((c6_dispatch_unknown_command refuseAll 9 initState ("bogus".data) none 1).2.1
    ("bogus".data) [] (by decide)).2.2 rfl rfl

end Delve
